import Mathlib

/-! Formal model of the LIFOrganiser package (`liforganiser/__init__.py`).

The development shallowly embeds the three cooperating pieces of the
package: the name transformation `_transform_name`, the course-data JSON
(de)serialization (`Course.dump`, `Course._from_json`, `Course.get`) and
the file reconciliation/relocation routine `Course.organise`.  Pure Python
functions become Lean functions; the stateful `organise` routine is
modelled as a function from its inputs (the course model, the listing of
the source directory, the set of directories existing on disk) to the
sequence of filesystem actions it performs together with an optional
uncaught exception.  Python `int` is `Int`, Python strings are `String`,
filesystem paths are lists of path components, and fallible code returns
`Except`/`Option` values whose error constructors name the Python
exception raised. -/

namespace LIF

/-- Characters treated as whitespace by Python's `str.strip` and `int`. -/
def isPySpace (c : Char) : Bool :=
  c == ' ' || c == '\t' || c == '\n' || c == '\r' || c == '\x0b' || c == '\x0c'

/-- Remove leading and trailing whitespace from a character list. -/
def pyStripChars (l : List Char) : List Char :=
  ((l.dropWhile isPySpace).reverse.dropWhile isPySpace).reverse

/-- Python `str.strip()`: remove leading and trailing whitespace. -/
def pyStrip (s : String) : String :=
  String.mk (pyStripChars s.toList)

/-- `startsWith pat l` holds when `pat` is an initial run of `l`. -/
def startsWith : List Char → List Char → Bool
  | [], _ => true
  | _ :: _, [] => false
  | p :: ps, c :: cs => p == c && startsWith ps cs

/-- `containsPat pat l` holds when `pat` occurs contiguously inside `l`. -/
def containsPat (pat : List Char) : List Char → Bool
  | [] => startsWith pat []
  | c :: cs => startsWith pat (c :: cs) || containsPat pat cs

/-- Decimal digit of a value below ten. -/
def digitChar : Nat → Char
  | 0 => '0' | 1 => '1' | 2 => '2' | 3 => '3' | 4 => '4'
  | 5 => '5' | 6 => '6' | 7 => '7' | 8 => '8' | _ => '9'

/-- Value of a decimal digit character. -/
def digitVal (c : Char) : Option Nat :=
  if c = '0' then some 0 else if c = '1' then some 1
  else if c = '2' then some 2 else if c = '3' then some 3
  else if c = '4' then some 4 else if c = '5' then some 5
  else if c = '6' then some 6 else if c = '7' then some 7
  else if c = '8' then some 8 else if c = '9' then some 9
  else none

/-- Little-endian decimal digits of `n`, with a fuel argument that keeps the
recursion structural (any fuel at least `n` is enough). -/
def natDigitsRev : Nat → Nat → List Char
  | _, 0 => []
  | 0, _ => []
  | Nat.succ fuel, n => digitChar (n % 10) :: natDigitsRev fuel (n / 10)

/-- Decimal representation of a natural number, as Python `str` produces it. -/
def natToStrChars (n : Nat) : List Char :=
  if n = 0 then ['0'] else (natDigitsRev n n).reverse

/-- Python `str` on an `int`. -/
def intToStr (n : Int) : String :=
  match n with
  | .ofNat m => String.mk (natToStrChars m)
  | .negSucc m => String.mk ('-' :: natToStrChars (m + 1))

/-- Value of a little-endian list of decimal digit characters; `none` if any
character is not a digit. -/
def ofDigitsRev : List Char → Option Nat
  | [] => some 0
  | c :: cs =>
    match digitVal c, ofDigitsRev cs with
    | some d, some v => some (d + 10 * v)
    | _, _ => none

/-- Parse a non-empty all-digit big-endian character list. -/
def parseNat (l : List Char) : Option Nat :=
  if l.isEmpty then none else ofDigitsRev l.reverse

/-- Python `int(s)` on a string: strip whitespace, optional sign, decimal
digits; `none` models the `ValueError` raised otherwise. -/
def pyStrToInt (s : String) : Option Int :=
  if (pyStripChars s.toList).headD ' ' = '-' then
    (parseNat ((pyStripChars s.toList).drop 1)).map (fun n => -(n : Int))
  else if (pyStripChars s.toList).headD ' ' = '+' then
    (parseNat ((pyStripChars s.toList).drop 1)).map Int.ofNat
  else (parseNat (pyStripChars s.toList)).map Int.ofNat

/-- Python `str.replace(pat, rep)` scanning left to right over `l`,
replacing non-overlapping occurrences; the fuel argument keeps the
recursion structural (fuel `l.length` is always enough). -/
def replaceFuel (pat rep : List Char) : Nat → List Char → List Char
  | _, [] => []
  | 0, l => l
  | Nat.succ fuel, c :: cs =>
    if startsWith pat (c :: cs) then
      rep ++ replaceFuel pat rep fuel (List.drop (pat.length - 1) cs)
    else
      c :: replaceFuel pat rep fuel cs

/-- Python `s.replace(pat, rep)` (for a non-empty `pat`, the only use here). -/
def pyReplace (s pat rep : String) : String :=
  String.mk (replaceFuel pat.toList rep.toList s.toList.length s.toList)

/-- The character replacements `_CHAR_REPLACEMENTS` applied in insertion
order by `_transform_name`: first `"/" -> " & "`, then `" - " -> "; "`. -/
def cleanName (name : String) : String :=
  pyReplace (pyReplace name "/" " & ") " - " "; "

/-- Python `"%0wd" % n` zero padding on the digit list. -/
def zeroPadNat (w : Nat) (l : List Char) : List Char :=
  List.replicate (w - l.length) '0' ++ l

/-- Python `"%0wd" % n`. -/
def zeroPad (w : Nat) (n : Int) : String :=
  match n with
  | .ofNat m => String.mk (zeroPadNat w (natToStrChars m))
  | .negSucc m => String.mk ('-' :: zeroPadNat (w - 1) (natToStrChars (m + 1)))

/-- `Course._transform_name(num, name, course_id, chapter_num)`: apply the
character replacements, then format `"s%03dch%02dl%02d - %s"` when a
chapter number is given and `"%02d - %s"` otherwise.  (In Python,
`course_id` is required to be a number whenever `chapter_num` is not
`None`; every caller passes both together.) -/
def transform_name (num : Int) (name : String) (course_id : Option Int)
    (chapter_num : Option Int) : String :=
  let cleaned := cleanName name
  match chapter_num with
  | some ch =>
    "s" ++ zeroPad 3 (course_id.getD 0) ++ "ch" ++ zeroPad 2 ch ++ "l" ++
      zeroPad 2 num ++ " - " ++ cleaned
  | none => zeroPad 2 num ++ " - " ++ cleaned

/-- The forbidden separator `" - "` as a character list. -/
def sepL : List Char := [' ', '-', ' ']

/-- The replacement `"; "` for the separator. -/
def repL : List Char := [';', ' ']

/-- Two overlapping separator occurrences `" - - "` as a character list. -/
def badL : List Char := [' ', '-', ' ', '-', ' ']

/-- The tail `"- "` of the separator. -/
def dsL : List Char := ['-', ' ']

/-! JSON values as produced by Python's `json.load`: object keys are
always strings. -/

inductive JValue where
  | jnull
  | jbool (b : Bool)
  | jnum (n : Int)
  | jstr (s : String)
  | jarr (xs : List JValue)
  | jobj (fields : List (String × JValue))

/-- The Python exceptions relevant to `_from_json`: `KeyError`,
`IndexError` and `TypeError` are caught there, `ValueError` is not. -/
inductive PyErr where
  | keyError
  | indexError
  | typeError
  | valueError
deriving DecidableEq

/-- Python subscription `v[idx]` on JSON-shaped values: dict lookup by
string key (`KeyError` when absent), list indexing by integers and
booleans (with negative indices, `IndexError` out of range), string
indexing by integers, `TypeError` otherwise. -/
def subscript (v idx : JValue) : Except PyErr JValue :=
  match v, idx with
  | .jobj fields, .jstr k =>
    match fields.lookup k with
    | some x => .ok x
    | none => .error .keyError
  | .jobj _, .jarr _ => .error .typeError
  | .jobj _, .jobj _ => .error .typeError
  | .jobj _, _ => .error .keyError
  | .jarr xs, .jnum n =>
    if h : 0 ≤ n ∧ n < xs.length then .ok (xs.get ⟨n.toNat, by omega⟩)
    else if h2 : 0 ≤ n + xs.length ∧ n < 0 then
      .ok (xs.get ⟨(n + xs.length).toNat, by omega⟩)
    else .error .indexError
  | .jarr xs, .jbool b =>
    if h : (if b then 1 else 0) < xs.length then
      .ok (xs.get ⟨if b then 1 else 0, h⟩)
    else .error .indexError
  | .jarr _, _ => .error .typeError
  | .jstr s, .jnum n =>
    if h : 0 ≤ n ∧ n.toNat < s.toList.length then
      .ok (.jstr (String.mk [s.toList.get ⟨n.toNat, h.2⟩]))
    else if h2 : n < 0 ∧ (n + s.toList.length).toNat < s.toList.length ∧
        0 ≤ n + s.toList.length then
      .ok (.jstr (String.mk [s.toList.get ⟨(n + s.toList.length).toNat, h2.2.1⟩]))
    else .error .indexError
  | .jstr _, _ => .error .typeError
  | _, _ => .error .typeError

/-- Python iteration `for x in v` on JSON-shaped values: over a dict it
yields the keys, over a list the elements, over a string its characters;
other values raise `TypeError`. -/
def pyIter (v : JValue) : Except PyErr (List JValue) :=
  match v with
  | .jobj fields => .ok (fields.map (fun kv => .jstr kv.1))
  | .jarr xs => .ok xs
  | .jstr s => .ok (s.toList.map (fun c => .jstr (String.mk [c])))
  | _ => .error .typeError

/-- Python `int(v)` on a JSON-shaped value: parse strings (`ValueError`
on failure), pass numbers through, convert booleans, `TypeError` on the
rest. -/
def pyIntJ (v : JValue) : Except PyErr Int :=
  match v with
  | .jstr s =>
    match pyStrToInt s with
    | some n => .ok n
    | none => .error .valueError
  | .jnum n => .ok n
  | .jbool b => .ok (if b then 1 else 0)
  | _ => .error .typeError

/-- Python dict assignment `d[k] = v` on an insertion-ordered association
list: an existing key keeps its position and gets the new value, a new
key is appended. -/
def dictInsert {α β : Type} [DecidableEq α] (k : α) (v : β) :
    List (α × β) → List (α × β)
  | [] => [(k, v)]
  | (k', v') :: rest =>
    if k = k' then (k, v) :: rest else (k', v') :: dictInsert k v rest

/-! The Python object graphs built by the package.  `_from_json` performs
no type validation on the values it stores, so the lesson names, chapter
names, course title and course id of a cache-loaded course are arbitrary
JSON values (`Py...` structures).  Courses built by scraping — the shape
`organise` is designed for and the well-formed shape of the data model —
carry integer ids and string names (`Lesson`/`Chapter`/`Course`). -/

structure PyLesson where
  num : Int
  name : JValue

structure PyChapter where
  num : Int
  name : JValue
  lessons : List (Int × PyLesson)

structure PyCourse where
  course_id : JValue
  title : JValue
  chapters : List (Int × PyChapter)

structure Lesson where
  num : Int
  name : String
deriving DecidableEq

structure Chapter where
  num : Int
  name : String
  lessons : List (Int × Lesson)
deriving DecidableEq

structure Course where
  course_id : Int
  title : String
  chapters : List (Int × Chapter)
deriving DecidableEq

/-- View of a well-typed lesson as a Python object. -/
def Lesson.toPy (l : Lesson) : PyLesson := ⟨l.num, .jstr l.name⟩

/-- View of a well-typed chapter as a Python object. -/
def Chapter.toPy (c : Chapter) : PyChapter :=
  ⟨c.num, .jstr c.name, c.lessons.map (fun kv => (kv.1, kv.2.toPy))⟩

/-- View of a well-typed course as a Python object. -/
def Course.toPy (c : Course) : PyCourse :=
  ⟨.jnum c.course_id, .jstr c.title, c.chapters.map (fun kv => (kv.1, kv.2.toPy))⟩

/-- The data-model invariants of §3 of the design: chapter and lesson
mappings are keyed by the number of the entity they hold, and numbers are
unique within their parent. -/
def WFCourse (c : Course) : Prop :=
  (c.chapters.map Prod.fst).Nodup ∧
    ∀ kv ∈ c.chapters, kv.1 = kv.2.num ∧ (kv.2.lessons.map Prod.fst).Nodup ∧
      ∀ lkv ∈ kv.2.lessons, lkv.1 = lkv.2.num

/-- The same invariants on a Python-shaped course. -/
def WFPyCourse (c : PyCourse) : Prop :=
  (c.chapters.map Prod.fst).Nodup ∧
    ∀ kv ∈ c.chapters, kv.1 = kv.2.num ∧ (kv.2.lessons.map Prod.fst).Nodup ∧
      ∀ lkv ∈ kv.2.lessons, lkv.1 = lkv.2.num

/-- The `lessons` dict written by `Course.dump` for one chapter: each
lesson is keyed by its stringified mapping key and holds the lesson's
name (`json.dump` stringifies the integer keys). -/
def dumpLessons (c : PyChapter) : JValue :=
  .jobj (c.lessons.map (fun lkv => (intToStr lkv.1, lkv.2.name)))

/-- The dict written by `Course.dump` for one chapter. -/
def dumpChapter (c : PyChapter) : JValue :=
  .jobj [("name", c.name), ("lessons", dumpLessons c)]

/-- `Course.dump` serialized shape: the `course` dict is built with keys
`course_id`, `title`, `chapters`; each chapter is keyed by
`str(chapter.num)`. -/
def dump (c : PyCourse) : JValue :=
  .jobj [("course_id", c.course_id), ("title", c.title),
    ("chapters", .jobj (c.chapters.map (fun kv =>
      (intToStr kv.2.num, dumpChapter kv.2))))]

/-- The lesson loop of `_from_json`: `lesson = chapter_lessons[lesson_num]`,
`lesson_num = int(lesson_num)`, `lessons[lesson_num] = _Lesson(lesson_num,
lesson)`. -/
def loadLessonsLoop (chapter_lessons : JValue) (acc : List (Int × PyLesson)) :
    List JValue → Except PyErr (List (Int × PyLesson))
  | [] => .ok acc
  | k :: rest =>
    match subscript chapter_lessons k with
    | .error e => .error e
    | .ok lesson =>
      match pyIntJ k with
      | .error e => .error e
      | .ok lesson_num =>
        loadLessonsLoop chapter_lessons
          (dictInsert lesson_num ⟨lesson_num, lesson⟩ acc) rest

/-- The chapter loop of `_from_json`: `chapter = course_chapters[chapter_num]`,
`chapter_num = int(chapter_num)`, `chapter_lessons = chapter["lessons"]`,
the lesson loop, then `chapters[chapter_num] = _Chapter(chapter_num,
chapter["name"], lessons)`. -/
def loadChaptersLoop (course_chapters : JValue) (acc : List (Int × PyChapter)) :
    List JValue → Except PyErr (List (Int × PyChapter))
  | [] => .ok acc
  | k :: rest =>
    match subscript course_chapters k with
    | .error e => .error e
    | .ok chapter =>
      match pyIntJ k with
      | .error e => .error e
      | .ok chapter_num =>
        match subscript chapter (.jstr "lessons") with
        | .error e => .error e
        | .ok chapter_lessons =>
          match pyIter chapter_lessons with
          | .error e => .error e
          | .ok lessonKeys =>
            match loadLessonsLoop chapter_lessons [] lessonKeys with
            | .error e => .error e
            | .ok lessons =>
              match subscript chapter (.jstr "name") with
              | .error e => .error e
              | .ok name =>
                loadChaptersLoop course_chapters
                  (dictInsert chapter_num ⟨chapter_num, name, lessons⟩ acc) rest

/-- The body of the `try` block of `_from_json`: read `course["chapters"]`
and iterate over it building the chapters dict. -/
def fromJsonTry (course : JValue) : Except PyErr (List (Int × PyChapter)) :=
  match subscript course (.jstr "chapters") with
  | .error e => .error e
  | .ok course_chapters =>
    match pyIter course_chapters with
    | .error e => .error e
    | .ok keys => loadChaptersLoop course_chapters [] keys

/-- Whether `except (KeyError, IndexError, TypeError)` catches the error. -/
def isCaught : PyErr → Bool
  | .keyError => true
  | .indexError => true
  | .typeError => true
  | .valueError => false

/-- `Course._from_json` applied to the parsed JSON value of the cache
file.  Errors raised inside the `try` block by the chapters traversal are
caught and turn into the `None` ("cache invalid") result; the final
`Course(course["course_id"], course["title"], chapters, ...)` call sits
outside the `try` block, so its lookups raise. -/
def _from_json (course : JValue) : Except PyErr (Option PyCourse) :=
  match fromJsonTry course with
  | .error e => if isCaught e then .ok none else .error e
  | .ok chapters =>
    match subscript course (.jstr "course_id") with
    | .error e => .error e
    | .ok cid =>
      match subscript course (.jstr "title") with
      | .error e => .error e
      | .ok title => .ok (some ⟨cid, title, chapters⟩)

/-- `Course.get`: when a cache file for the course id exists (modelled by
`cacheFile = some j` holding its parsed content), `_from_json` is tried
first and its non-`None` result is returned as is; otherwise the course
is scraped (`from_url`, abstracted as the total function `scrape` since
its network and HTML inputs are external). -/
def get (course_id : Int) (cacheFile : Option JValue)
    (scrape : Int → PyCourse) : Except PyErr PyCourse :=
  match cacheFile with
  | some j =>
    match _from_json j with
    | .error e => .error e
    | .ok (some c) => .ok c
    | .ok none => .ok (scrape course_id)
  | none => .ok (scrape course_id)

/-! Model of `Course.organise`.  A filesystem path is its list of
components (`os.path.join` is concatenation).  The routine is modelled as
a function from the course, the `os.listdir(src)` listing (each entry
carrying the `os.walk` output of its content root, the interface of the
standard-library walk) and the set of directories existing on disk, to
the ordered list of filesystem actions performed and an optional uncaught
exception.  The caller-supplied regular expression patterns are external
inputs and are modelled as the match functions they induce:
`chapterPat name` is `int(re.match(chapter_pattern, name).group(1))` when
the entry name matches, and `lessonPat file_name` gives the parsed group
1 and the group-2 text when the file name matches. -/

/-- A filesystem path as its list of components. -/
abbrev Path := List String

/-- `os.path.relpath(path, start)` on component lists. -/
def dropCommon : List String → List String → List String × List String
  | a :: as, b :: bs => if a = b then dropCommon as bs else (a :: as, b :: bs)
  | as, bs => (as, bs)

/-- `os.path.relpath(path, start)` on component lists. -/
def relpathL (path start : List String) : List String :=
  let pr := dropCommon path start
  List.replicate pr.2.length ".." ++ pr.1

/-- All the directories `os.makedirs(p)` brings into existence (every
prefix of `p`). -/
def pathPrefixes (p : Path) : List Path :=
  (List.range (p.length + 1)).map (fun i => p.take i)

/-- The filesystem actions `organise` performs, in order.  The `extract`
action records the directories `ZipFile.extractall` creates. -/
inductive Action where
  | mkdir (p : Path)
  | extract (zipPath p : Path) (created : List Path)
  | makedirs (p : Path)
  | move (src dst : Path)
  | rename (old new : Path)
  | rmtree (p : Path)
deriving DecidableEq

/-- The uncaught exceptions of `organise`: the `OSError` raised by the
precondition checks on the directory arguments, and the `KeyError`
raised by `self.chapters[chapter_num]`. -/
inductive OrgErr where
  | invalidPath (p : Path)
  | keyError (n : Int)
deriving DecidableEq

/-- The `os.listdir(src)` entries: a plain non-archive file, a directory,
or a zip archive; directories and archives carry the `os.walk` output of
their content tree as pairs of (directory path relative to the content
root, file names in that directory), in top-down walk order. -/
inductive EntryKind where
  | plainFile
  | dir (listing : List (List String × List String))
  | zipArchive (listing : List (List String × List String))
deriving DecidableEq

structure Entry where
  name : String
  kind : EntryKind
deriving DecidableEq

/-- The walk listing of `kind`, when the entry has one (it is a directory
or a zip archive). -/
def entryListing : EntryKind → Option (List (List String × List String))
  | .plainFile => none
  | .dir l => some l
  | .zipArchive l => some l

/-- A transient `_File` record: extension, optional lesson number, source
path and computed destination path. -/
structure OFile where
  ext : String
  num : Option Int
  file_path : Path
  new_file_path : Path
deriving DecidableEq

/-- The resolved configuration of one `organise` run. -/
structure Ctx where
  course : Course
  src : Path
  dst : Path
  avi_dst : Path
  pdf_dst : Path
  chapterPat : String → Option Int
  lessonPat : String → Option (Int × String)
  completedPfx : Option String
  ignored_exts : List String

/-- Build the run configuration from the validated arguments. -/
def mkCtx (course : Course) (src dst avi_dst pdf_dst : Path)
    (chapterPat : String → Option Int) (lessonPat : String → Option (Int × String))
    (completedPfx : Option String) (ignored_exts : List String) : Ctx :=
  ⟨course, src, dst, avi_dst, pdf_dst, chapterPat, lessonPat, completedPfx,
    ignored_exts⟩

/-- `temp_dir_path = os.path.join(src, ".temp")`. -/
def tempPath (ctx : Ctx) : Path := ctx.src ++ [".temp"]

/-- The extension suffix (with its dot) selected by `os.path.splitext` on
a bare file name: the suffix starting at the last dot that has some
non-dot character before it. -/
def extSuffix : List Char → Bool → Option (List Char) → Option (List Char)
  | [], _, best => best
  | c :: cs, seen, best =>
    if c = '.' then extSuffix cs seen (if seen then some (c :: cs) else best)
    else extSuffix cs true best

/-- `os.path.splitext(file_name)[1][1:].lower()` — the lower-cased
extension without its dot, the empty string when there is none. -/
def extOf (fn : String) : String :=
  match extSuffix fn.toList false none with
  | none => ""
  | some l => String.mk ((l.drop 1).map Char.toLower)

/-- The walk output of a content root placed at absolute path `p`. -/
def absWalk (p : Path) (listing : List (List String × List String)) :
    List (Path × List String) :=
  listing.map (fun e => (p ++ e.1, e.2))

/-- The walk of the chapter content root of an entry: a directory entry is
walked in place, an extracted archive is walked inside the scratch
directory. -/
def entryWalk (ctx : Ctx) (e : Entry) : List (Path × List String) :=
  match e.kind with
  | .plainFile => []
  | .dir l => absWalk (ctx.src ++ [e.name]) l
  | .zipArchive l => absWalk (tempPath ctx ++ [e.name]) l

/-- The inner `for file_name in file_names` loop of `organise`: compute
the extension (skipping ignored ones), the destination-relative path and
the destination, distinguishing lesson files (renamed from the course
model for avi/pdf extensions, rebuilt with `_transform_name` otherwise)
from non-matching files (moved unrenamed).  A matched avi/pdf file whose
lesson number is absent from the chapter stops this loop (`break`),
discarding the remaining `file_names` of this walk root only. -/
def processFiles (ctx : Ctx) (chapter : Chapter) (chapter_num : Int)
    (root contents_path : Path) : List String → List OFile
  | [] => []
  | fn :: rest =>
    let ext := extOf fn
    if ext ∈ ctx.ignored_exts then
      processFiles ctx chapter chapter_num root contents_path rest
    else
      let file_path := root ++ [fn]
      let dst_rel := [ctx.course.title, chapter.name] ++
        (if root = contents_path then [] else relpathL root contents_path)
      match ctx.lessonPat fn with
      | some lm =>
        if ext = "avi" ∨ ext = "pdf" then
          match chapter.lessons.lookup lm.1 with
          | none => []
          | some lesson =>
            let nm := lesson.name ++ "." ++ ext
            let dstRoot := if ext = "avi" then ctx.avi_dst else ctx.pdf_dst
            ⟨ext, some lm.1, file_path, dstRoot ++ dst_rel ++ [nm]⟩ ::
              processFiles ctx chapter chapter_num root contents_path rest
        else
          let nm := transform_name lm.1 (pyStrip lm.2)
            (some ctx.course.course_id) (some chapter_num) ++ "." ++ ext
          ⟨ext, some lm.1, file_path, ctx.dst ++ dst_rel ++ [nm]⟩ ::
            processFiles ctx chapter chapter_num root contents_path rest
      | none =>
        ⟨ext, none, file_path, ctx.dst ++ dst_rel ++ [fn]⟩ ::
          processFiles ctx chapter chapter_num root contents_path rest

/-- The `os.walk` loop of `organise`: roots without files are skipped,
`contents_path` is fixed at the first root that has files, and each
root's files are processed in turn (a `break` inside one root does not
stop the walk). -/
def collectLoop (ctx : Ctx) (chapter : Chapter) (chapter_num : Int) :
    Option Path → List (Path × List String) → List OFile
  | _, [] => []
  | cp, (root, fnames) :: rest =>
    if fnames.isEmpty then collectLoop ctx chapter chapter_num cp rest
    else
      let cp' := cp.getD root
      processFiles ctx chapter chapter_num root cp' fnames ++
        collectLoop ctx chapter chapter_num (some cp') rest

/-- The `files` list built for one chapter entry. -/
def collectFiles (ctx : Ctx) (chapter : Chapter) (chapter_num : Int)
    (walkL : List (Path × List String)) : List OFile :=
  collectLoop ctx chapter chapter_num none walkL

/-- The lesson numbers of the collected files with extension `avi`
(`_file.ext == "avi" and _file.num is not None`). -/
def aviNums (files : List OFile) : List Int :=
  files.filterMap (fun f => if f.ext = "avi" then f.num else none)

/-- Equality of the sets denoted by two lists (`set(a) == set(b)`). -/
def sameSet (a b : List Int) : Bool :=
  a.all (fun x => b.contains x) && b.all (fun x => a.contains x)

/-- How one action changes the set of directories existing on disk. -/
def dirsStep (dirs : List Path) : Action → List Path
  | .mkdir p => p :: dirs
  | .extract _ _ created => created ++ dirs
  | .makedirs p => pathPrefixes p ++ dirs
  | _ => dirs

/-- The directories existing after performing `acts` from `dirs`. -/
def applyActs (dirs : List Path) (acts : List Action) : List Path :=
  acts.foldl dirsStep dirs

/-- The move loop of `organise`: for each collected file, create the
destination directory if it is missing, then move the file. -/
def movePhase (dirs : List Path) : List OFile → List Action
  | [] => []
  | f :: rest =>
    let dir_path := f.new_file_path.dropLast
    if dir_path ∈ dirs then
      Action.move f.file_path f.new_file_path :: movePhase dirs rest
    else
      Action.makedirs dir_path :: Action.move f.file_path f.new_file_path ::
        movePhase (pathPrefixes dir_path ++ dirs) rest

/-- The zip branch of `organise`: create the scratch directory when it
does not exist yet, then extract the archive into it. -/
def extractActs (ctx : Ctx) (dirs : List Path) (e : Entry) : List Action :=
  (if tempPath ctx ∈ dirs then [] else [Action.mkdir (tempPath ctx)]) ++
    [Action.extract (ctx.src ++ [e.name]) (tempPath ctx ++ [e.name])
      ((entryWalk ctx e).map Prod.fst)]

/-- Processing of one chapter entry after its content root is known:
`self.chapters[chapter_num]` (an uncaught `KeyError` when absent), the
file collection, the lesson-set completeness check (a mismatch skips the
chapter), the move loop and the optional completed-prefix rename. -/
def processChapter (ctx : Ctx) (dirs : List Path) (chapter_num : Int)
    (name : String) (walkL : List (Path × List String)) :
    List Action × Option OrgErr :=
  match ctx.course.chapters.lookup chapter_num with
  | none => ([], some (.keyError chapter_num))
  | some chapter =>
    let files := collectFiles ctx chapter chapter_num walkL
    if sameSet (chapter.lessons.map Prod.fst) (aviNums files) then
      let mv := movePhase dirs files
      let rn := match ctx.completedPfx with
        | none => []
        | some pfx =>
          [Action.rename (ctx.src ++ [name]) (ctx.src ++ [pfx ++ name])]
      (mv ++ rn, none)
    else ([], none)

/-- Processing of one `os.listdir(src)` entry: entries not matching the
chapter pattern and matching plain files are skipped, archives are
extracted into the scratch directory, then the chapter is processed. -/
def processEntry (ctx : Ctx) (dirs : List Path) (e : Entry) :
    List Action × Option OrgErr :=
  match ctx.chapterPat e.name with
  | none => ([], none)
  | some chapter_num =>
    match e.kind with
    | .plainFile => ([], none)
    | .dir _ => processChapter ctx dirs chapter_num e.name (entryWalk ctx e)
    | .zipArchive _ =>
      let pre := extractActs ctx dirs e
      let r := processChapter ctx (applyActs dirs pre) chapter_num e.name
        (entryWalk ctx e)
      (pre ++ r.1, r.2)

/-- The `for name in os.listdir(src)` loop: an uncaught exception aborts
the remaining entries. -/
def orgLoop (ctx : Ctx) (dirs : List Path) :
    List Entry → List Action × Option OrgErr
  | [] => ([], none)
  | e :: rest =>
    let r := processEntry ctx dirs e
    match r.2 with
    | some er => (r.1, some er)
    | none =>
      let r2 := orgLoop ctx (applyActs dirs r.1) rest
      (r.1 ++ r2.1, r2.2)

/-- Resolve an optional destination override: `None` falls back to `dst`,
a supplied path must be an existing directory. -/
def resolveDst (dirs0 : List Path) (dflt : Path) : Option Path → Except Path Path
  | none => .ok dflt
  | some p => if p ∈ dirs0 then .ok p else .error p

/-- `Course.organise(src, dst, chapter_pattern, lesson_pattern, avi_dst,
pdf_dst, completed_prefix, ignored_exts)`: validate the directory
arguments (raising `OSError`, modelled as `OrgErr.invalidPath`, for a
missing one), process every listing entry, and finally delete the
scratch directory when it exists.  `dirs0` is the set of directories
existing on disk when the call starts; `entries` is the
`os.listdir(src)` listing. -/
def organise (course : Course) (src dst : Path)
    (chapterPat : String → Option Int) (lessonPat : String → Option (Int × String))
    (entries : List Entry) (avi_dst pdf_dst : Option Path)
    (completedPfx : Option String) (ignored_exts : List String)
    (dirs0 : List Path) : List Action × Option OrgErr :=
  if src ∉ dirs0 then ([], some (.invalidPath src))
  else if dst ∉ dirs0 then ([], some (.invalidPath dst))
  else
    match resolveDst dirs0 dst avi_dst with
    | .error p => ([], some (.invalidPath p))
    | .ok adst =>
      match resolveDst dirs0 dst pdf_dst with
      | .error p => ([], some (.invalidPath p))
      | .ok pdst =>
        let ctx := mkCtx course src dst adst pdst chapterPat lessonPat
          completedPfx ignored_exts
        let r := orgLoop ctx dirs0 entries
        match r.2 with
        | some er => (r.1, some er)
        | none =>
          if tempPath ctx ∈ applyActs dirs0 r.1 then
            (r.1 ++ [Action.rmtree (tempPath ctx)], none)
          else (r.1, none)

/-- Whether an action is a file move. -/
def Action.isMove : Action → Bool
  | .move _ _ => true
  | _ => false

/-- Whether an action is a rename of a source entry. -/
def Action.isRen : Action → Bool
  | .rename _ _ => true
  | _ => false

/-- Every `move` in the trace finds its destination directory already
existing at the moment it runs, the directory set evolving by
`dirsStep`. -/
def movesOk (dirs : List Path) : List Action → Bool
  | [] => true
  | a :: rest =>
    (match a with
     | .move _ d => decide (d.dropLast ∈ dirs)
     | _ => true) && movesOk (dirsStep dirs a) rest


/-! Concrete inputs used in the closed theorems below. -/

def courseW4 : Course :=
  ⟨160, "160 - T", [(1, ⟨1, "01 - C", [(1, ⟨1, "s160ch01l01 - A"⟩), (2, ⟨2, "s160ch01l02 - B"⟩)]⟩),
    (2, ⟨2, "02 - D", []⟩)]⟩

def recC5 : JValue := .jobj [("course_id", .jnum 5), ("chapters", .jobj [])]

def recC10 : JValue := .jobj [("course_id", .jnum 999), ("title", .jstr "t"),
  ("chapters", .jobj [])]

def scrapeW : Int → PyCourse := fun _ => ⟨.jnum 0, .jstr "", []⟩

def chapW1 : Chapter := ⟨1, "01 - C", [(1, ⟨1, "s100ch01l01 - A"⟩)]⟩

def courseW1 : Course := ⟨100, "T", [(1, chapW1)]⟩

def chapPat1 (n : String) : Option Int :=
  if n = "Chapter 1" then some 1 else none

def lessPat1 (fn : String) : Option (Int × String) :=
  if fn = "1. a.avi" then some (1, "a")
  else if fn = "2. b.pdf" then some (2, "b")
  else none

def chapPat5 (n : String) : Option Int :=
  if n = "Chapter 5" then some 5 else none

def chapW2 : Chapter :=
  ⟨1, "01 - C", [(1, ⟨1, "s100ch01l01 - A"⟩), (2, ⟨2, "s100ch01l02 - B"⟩)]⟩

def courseW2 : Course := ⟨100, "T", [(1, chapW2)]⟩

def ctxW2 : Ctx :=
  mkCtx courseW2 ["src"] ["dst"] ["dst"] ["dst"] chapPat1 lessPat1 none ["html"]

def eW2 : Entry := ⟨"Chapter 1", .dir [([], ["1. a.avi"])]⟩

def lessPat3 (fn : String) : Option (Int × String) :=
  if fn = "1. a.avi" then some (1, "a") else none

def ctxW3 : Ctx :=
  mkCtx courseW1 ["src"] ["dst"] ["dst"] ["dst"] chapPat1 lessPat3
    (some "DONE ") ["html"]

def eW3 : Entry := ⟨"Chapter 1", .dir [([], ["1. a.avi"])]⟩

def fW3 : OFile :=
  ⟨"avi", some 1, ["src", "Chapter 1", "1. a.avi"],
    ["dst", "T", "01 - C", "s100ch01l01 - A.avi"]⟩

/-! Lemmas and theorems. -/

lemma containsPat_tail {pat : List Char} {c : Char} {cs : List Char}
    (h : containsPat pat (c :: cs) = false) : containsPat pat cs = false := by
  simp only [containsPat, Bool.or_eq_false_iff] at h
  exact h.2

lemma containsPat_head {pat : List Char} {c : Char} {cs : List Char}
    (h : containsPat pat (c :: cs) = false) : startsWith pat (c :: cs) = false := by
  simp only [containsPat, Bool.or_eq_false_iff] at h
  exact h.1

lemma replace_ds_start (fuel : Nat) (cs : List Char)
    (h : startsWith dsL (replaceFuel sepL repL fuel cs) = true) :
    startsWith dsL cs = true := by
  match fuel, cs with
  | 0, [] => exact h
  | 0, c :: cs' => exact h
  | fuel + 1, [] => simp [replaceFuel, startsWith, dsL] at h
  | fuel + 1, c :: cs' =>
    by_cases hs : startsWith sepL (c :: cs') = true
    · simp only [replaceFuel, if_pos hs] at h
      simp [repL, dsL, startsWith] at h
    · simp only [replaceFuel, if_neg hs] at h
      simp only [dsL, startsWith, Bool.and_eq_true, beq_iff_eq] at h ⊢
      obtain ⟨hc, h2⟩ := h
      refine ⟨hc, ?_⟩
      match fuel, cs' with
      | 0, [] => simp [replaceFuel, startsWith] at h2
      | 0, d :: cs'' => exact h2
      | g + 1, [] => simp [replaceFuel, startsWith] at h2
      | g + 1, d :: cs'' =>
        by_cases hs2 : startsWith sepL (d :: cs'') = true
        · simp only [replaceFuel, if_pos hs2] at h2
          simp [repL, startsWith] at h2
        · simp only [replaceFuel, if_neg hs2] at h2
          simp only [startsWith, Bool.and_eq_true, beq_iff_eq] at h2 ⊢
          exact ⟨h2.1, trivial⟩

lemma replace_no_sep : ∀ (fuel : Nat) (l : List Char), l.length ≤ fuel →
    containsPat badL l = false →
    containsPat sepL (replaceFuel sepL repL fuel l) = false := by
  intro fuel
  induction fuel with
  | zero =>
    intro l hl _
    have hnil : l = [] := List.eq_nil_of_length_eq_zero (Nat.le_zero.mp hl)
    subst hnil
    decide
  | succ fuel ih =>
    intro l hl hb
    rcases l with _ | ⟨c, cs⟩
    · simp [replaceFuel, containsPat, startsWith, sepL]
    by_cases hs : startsWith sepL (c :: cs) = true
    · rcases cs with _ | ⟨c2, _ | ⟨c3, rest⟩⟩
      · simp [sepL, startsWith] at hs
      · simp [sepL, startsWith] at hs
      · have hd := hs
        simp only [sepL, startsWith, Bool.and_eq_true, beq_iff_eq] at hd
        obtain ⟨h1, h2, h3, _⟩ := hd
        subst h1; subst h2; subst h3
        have hrw : replaceFuel sepL repL (fuel + 1) (' ' :: '-' :: ' ' :: rest) =
            ';' :: ' ' :: replaceFuel sepL repL fuel rest := by
          simp only [replaceFuel, if_pos hs]
          simp [sepL, repL]
        rw [hrw]
        have hrest : rest.length ≤ fuel := by
          simp only [List.length_cons] at hl; omega
        have hbrest : containsPat badL rest = false :=
          containsPat_tail (containsPat_tail (containsPat_tail hb))
        have hihr := ih rest hrest hbrest
        simp only [containsPat, Bool.or_eq_false_iff]
        refine ⟨?_, ?_, hihr⟩
        · simp [sepL, startsWith]
        · have hsw : startsWith sepL (' ' :: replaceFuel sepL repL fuel rest) =
              startsWith dsL (replaceFuel sepL repL fuel rest) := by
            simp [sepL, dsL, startsWith]
          rw [hsw]
          cases hds : startsWith dsL (replaceFuel sepL repL fuel rest) with
          | false => rfl
          | true =>
            exfalso
            have hdrest := replace_ds_start fuel rest hds
            have hbb : startsWith badL (' ' :: '-' :: ' ' :: rest) =
                startsWith dsL rest := by
              simp [badL, dsL, startsWith]
            have hbad := containsPat_head hb
            rw [hbb] at hbad
            rw [hbad] at hdrest
            exact Bool.false_ne_true hdrest
    · have hrw : replaceFuel sepL repL (fuel + 1) (c :: cs) =
          c :: replaceFuel sepL repL fuel cs := by
        simp only [replaceFuel, if_neg hs]
      rw [hrw]
      have hcs : cs.length ≤ fuel := by
        simp only [List.length_cons] at hl; omega
      have hihr := ih cs hcs (containsPat_tail hb)
      simp only [containsPat, Bool.or_eq_false_iff]
      refine ⟨?_, hihr⟩
      cases hc : (' ' == c) with
      | false => simp [sepL, startsWith, hc]
      | true =>
        have hceq : c = ' ' := (beq_iff_eq.mp hc).symm
        subst hceq
        have hsw : startsWith sepL (' ' :: replaceFuel sepL repL fuel cs) =
            startsWith dsL (replaceFuel sepL repL fuel cs) := by
          simp [sepL, dsL, startsWith]
        rw [hsw]
        cases hds : startsWith dsL (replaceFuel sepL repL fuel cs) with
        | false => rfl
        | true =>
          exfalso
          have hdcs := replace_ds_start fuel cs hds
          have h5 : startsWith sepL (' ' :: cs) = startsWith dsL cs := by
            simp [sepL, dsL, startsWith]
          rw [h5, hdcs] at hs
          exact hs rfl

lemma digitVal_digitChar {d : Nat} (h : d < 10) : digitVal (digitChar d) = some d := by
  interval_cases d <;> rfl

lemma isPySpace_digitChar (d : Nat) : isPySpace (digitChar d) = false := by
  match d with
  | 0 | 1 | 2 | 3 | 4 | 5 | 6 | 7 | 8 => rfl
  | n + 9 => rfl

lemma digitChar_ne_dash (d : Nat) : digitChar d ≠ '-' := by
  match d with
  | 0 | 1 | 2 | 3 | 4 | 5 | 6 | 7 | 8 => decide
  | n + 9 =>
    show ('9' : Char) ≠ '-'
    decide

lemma digitChar_ne_plus (d : Nat) : digitChar d ≠ '+' := by
  match d with
  | 0 | 1 | 2 | 3 | 4 | 5 | 6 | 7 | 8 => decide
  | n + 9 =>
    show ('9' : Char) ≠ '+'
    decide

lemma ofDigitsRev_natDigitsRev : ∀ (fuel n : Nat), n ≤ fuel →
    ofDigitsRev (natDigitsRev fuel n) = some n := by
  intro fuel
  induction fuel with
  | zero =>
    intro n hn
    have : n = 0 := Nat.le_zero.mp hn
    subst this
    rfl
  | succ fuel ih =>
    intro n hn
    match n with
    | 0 => rfl
    | m + 1 =>
      have hlt : (m + 1) / 10 < m + 1 := Nat.div_lt_self (Nat.succ_pos m) (by norm_num)
      have hle : (m + 1) / 10 ≤ fuel := by omega
      have hmod : (m + 1) % 10 < 10 := Nat.mod_lt _ (by norm_num)
      show ofDigitsRev (digitChar ((m + 1) % 10) :: natDigitsRev fuel ((m + 1) / 10)) =
        some (m + 1)
      simp only [ofDigitsRev, digitVal_digitChar hmod, ih _ hle]
      congr 1
      omega

lemma natDigitsRev_digits : ∀ (fuel n : Nat), ∀ c ∈ natDigitsRev fuel n,
    ∃ d, d < 10 ∧ c = digitChar d := by
  intro fuel
  induction fuel with
  | zero =>
    intro n c hc
    match n with
    | 0 => simp [natDigitsRev] at hc
    | m + 1 => simp [natDigitsRev] at hc
  | succ fuel ih =>
    intro n c hc
    match n with
    | 0 => simp [natDigitsRev] at hc
    | m + 1 =>
      rw [show natDigitsRev (fuel + 1) (m + 1) =
        digitChar ((m + 1) % 10) :: natDigitsRev fuel ((m + 1) / 10) from rfl] at hc
      rcases List.mem_cons.mp hc with h | h
      · exact ⟨(m + 1) % 10, Nat.mod_lt _ (by norm_num), h⟩
      · exact ih _ c h

lemma natToStrChars_digits (n : Nat) : ∀ c ∈ natToStrChars n,
    ∃ d, d < 10 ∧ c = digitChar d := by
  intro c hc
  unfold natToStrChars at hc
  by_cases h : n = 0
  · subst h
    simp at hc
    exact ⟨0, by norm_num, hc⟩
  · rw [if_neg h] at hc
    exact natDigitsRev_digits n n c (List.mem_reverse.mp hc)

lemma natToStrChars_ne_nil (n : Nat) : natToStrChars n ≠ [] := by
  unfold natToStrChars
  by_cases h : n = 0
  · subst h; simp
  · rw [if_neg h]
    match n, h with
    | m + 1, _ =>
      rw [show natDigitsRev (m + 1) (m + 1) =
        digitChar ((m + 1) % 10) :: natDigitsRev m ((m + 1) / 10) from rfl]
      simp

lemma dropWhile_all_false {p : Char → Bool} : ∀ (l : List Char),
    (∀ c ∈ l, p c = false) → l.dropWhile p = l := by
  intro l h
  match l with
  | [] => rfl
  | c :: cs =>
    rw [List.dropWhile_cons, h c (List.mem_cons_self c cs)]
    simp

lemma pyStripChars_id (l : List Char) (h : ∀ c ∈ l, isPySpace c = false) :
    pyStripChars l = l := by
  unfold pyStripChars
  rw [dropWhile_all_false _ h]
  rw [dropWhile_all_false _ (fun c hc => h c (List.mem_reverse.mp hc))]
  exact List.reverse_reverse l

lemma parseNat_natToStrChars (n : Nat) : parseNat (natToStrChars n) = some n := by
  by_cases h : n = 0
  · subst h; rfl
  · unfold parseNat natToStrChars
    rw [if_neg h]
    have hne : natDigitsRev n n ≠ [] := by
      match n, h with
      | m + 1, _ =>
        rw [show natDigitsRev (m + 1) (m + 1) =
          digitChar ((m + 1) % 10) :: natDigitsRev m ((m + 1) / 10) from rfl]
        simp
    rw [if_neg (by simpa using fun hh => hne (List.reverse_eq_nil_iff.mp hh))]
    rw [List.reverse_reverse]
    exact ofDigitsRev_natDigitsRev n n le_rfl

lemma pyStrToInt_intToStr (z : Int) : pyStrToInt (intToStr z) = some z := by
  match z with
  | .ofNat m =>
    unfold pyStrToInt intToStr
    have htl : (String.mk (natToStrChars m)).toList = natToStrChars m := rfl
    rw [htl]
    have hall : ∀ c ∈ natToStrChars m, isPySpace c = false := by
      intro c hc
      obtain ⟨d, _, rfl⟩ := natToStrChars_digits m c hc
      exact isPySpace_digitChar d
    rw [pyStripChars_id _ hall]
    match hm : natToStrChars m, natToStrChars_ne_nil m with
    | c :: rest, _ =>
      obtain ⟨d, _, hd⟩ := natToStrChars_digits m c
        (by rw [hm]; exact List.mem_cons_self _ _)
      subst hd
      rw [show (digitChar d :: rest).headD ' ' = digitChar d from rfl]
      rw [if_neg (digitChar_ne_dash d), if_neg (digitChar_ne_plus d)]
      rw [← hm, parseNat_natToStrChars]
      rfl
  | .negSucc m =>
    unfold pyStrToInt intToStr
    have htl : (String.mk ('-' :: natToStrChars (m + 1))).toList =
      '-' :: natToStrChars (m + 1) := rfl
    rw [htl]
    have hall : ∀ c ∈ '-' :: natToStrChars (m + 1), isPySpace c = false := by
      intro c hc
      rcases List.mem_cons.mp hc with h | h
      · subst h; rfl
      · obtain ⟨d, _, rfl⟩ := natToStrChars_digits (m + 1) c h
        exact isPySpace_digitChar d
    rw [pyStripChars_id _ hall]
    rw [show ('-' :: natToStrChars (m + 1)).headD ' ' = '-' from rfl]
    rw [if_pos rfl]
    rw [show ('-' :: natToStrChars (m + 1)).drop 1 = natToStrChars (m + 1) from rfl]
    rw [parseNat_natToStrChars]
    simp [Int.negSucc_eq]

lemma intToStr_inj : Function.Injective intToStr := by
  intro a b h
  have h2 := pyStrToInt_intToStr a
  rw [h, pyStrToInt_intToStr b] at h2
  exact ((Option.some.injEq _ _).mp h2).symm

lemma lookup_append_none {α β : Type} [BEq α] (k : α) (a b : List (α × β))
    (h : a.lookup k = none) : (a ++ b).lookup k = b.lookup k := by
  induction a with
  | nil => rfl
  | cons q rest ih =>
    simp only [List.lookup] at h ⊢
    cases hk : (k == q.1) with
    | true => rw [hk] at h; simp at h
    | false =>
      rw [hk] at h
      simp only [List.cons_append, List.lookup, hk]
      exact ih h

lemma dictInsert_append {α β : Type} [DecidableEq α] [BEq α] [LawfulBEq α]
    (k : α) (v : β) (acc : List (α × β)) (h : acc.lookup k = none) :
    dictInsert k v acc = acc ++ [(k, v)] := by
  induction acc with
  | nil => rfl
  | cons q rest ih =>
    simp only [List.lookup] at h
    cases hk : (k == q.1) with
    | true => rw [hk] at h; simp at h
    | false =>
      rw [hk] at h
      have hne : k ≠ q.1 := by
        intro he
        rw [he] at hk
        simp at hk
      rcases q with ⟨k', v'⟩
      simp only [dictInsert, if_neg hne, List.cons_append]
      rw [ih h]

lemma lookup_map_intToStr {β γ : Type} (f : Int × β → γ) :
    ∀ (l : List (Int × β)), (l.map Prod.fst).Nodup →
    ∀ p ∈ l, (l.map (fun q => (intToStr q.1, f q))).lookup (intToStr p.1) = some (f p) := by
  intro l
  induction l with
  | nil => intro _ p hp; simp at hp
  | cons q rest ih =>
    intro hnd p hp
    have hnd2 := hnd
    simp only [List.map_cons, List.nodup_cons] at hnd2
    rcases List.mem_cons.mp hp with h | h
    · subst h
      simp [List.lookup]
    · have hne : p.1 ≠ q.1 := by
        intro he
        exact hnd2.1 (he ▸ List.mem_map_of_mem Prod.fst h)
      have hbne : (intToStr p.1 == intToStr q.1) = false := by
        rw [beq_eq_false_iff_ne]
        intro hx
        exact hne (intToStr_inj hx)
      simp only [List.map_cons, List.lookup, hbne]
      exact ih hnd2.2 p h

lemma lookup_singleton_ne {α β : Type} [BEq α] (k j : α) (v : β)
    (h : (k == j) = false) : List.lookup k [(j, v)] = none := by
  simp [List.lookup, h]

lemma loadLessonsLoop_ok :
    ∀ (rem : List (Int × PyLesson)) (F : List (String × JValue))
      (acc : List (Int × PyLesson)),
    (∀ p ∈ rem, F.lookup (intToStr p.1) = some p.2.name) →
    (∀ p ∈ rem, acc.lookup p.1 = none) →
    (rem.map Prod.fst).Nodup →
    loadLessonsLoop (.jobj F) acc (rem.map (fun p => JValue.jstr (intToStr p.1))) =
      .ok (acc ++ rem.map (fun p => (p.1, PyLesson.mk p.1 p.2.name))) := by
  intro rem
  induction rem with
  | nil => intro F acc _ _ _; simp [loadLessonsLoop]
  | cons q rest ih =>
    intro F acc h1 h2 hnd
    have hq1 := h1 q (List.mem_cons_self _ _)
    have hq2 := h2 q (List.mem_cons_self _ _)
    have hInt : pyIntJ (JValue.jstr (intToStr q.1)) = .ok q.1 := by
      simp [pyIntJ, pyStrToInt_intToStr]
    simp only [List.map_cons, loadLessonsLoop, subscript, hq1, hInt]
    rw [dictInsert_append _ _ _ hq2]
    have hnd2 := hnd
    simp only [List.map_cons, List.nodup_cons] at hnd2
    rw [ih F (acc ++ [(q.1, PyLesson.mk q.1 q.2.name)])
      (fun p hp => h1 p (List.mem_cons_of_mem _ hp))
      (fun p hp => by
        rw [lookup_append_none _ _ _ (h2 p (List.mem_cons_of_mem _ hp))]
        apply lookup_singleton_ne
        rw [beq_eq_false_iff_ne]
        intro he
        exact hnd2.1 (he ▸ List.mem_map_of_mem Prod.fst hp))
      hnd2.2]
    simp

lemma dumpLessons_lookup (c : PyChapter)
    (hnd : (c.lessons.map Prod.fst).Nodup)
    (hwf : ∀ l ∈ c.lessons, l.1 = l.2.num) :
    loadLessonsLoop (dumpLessons c) []
      (c.lessons.map (fun p => JValue.jstr (intToStr p.1))) = .ok c.lessons := by
  unfold dumpLessons
  rw [loadLessonsLoop_ok c.lessons (c.lessons.map (fun lkv => (intToStr lkv.1, lkv.2.name)))
    [] (fun p hp => lookup_map_intToStr (fun q => q.2.name) c.lessons hnd p hp)
    (fun p _ => rfl) hnd]
  simp only [List.nil_append]
  have hid : ∀ p ∈ c.lessons, (p.1, PyLesson.mk p.1 p.2.name) = p := by
    intro p hp
    obtain ⟨k, l⟩ := p
    have hh : k = l.num := hwf ⟨k, l⟩ hp
    subst hh
    rfl
  congr 1
  rw [List.map_congr_left hid]
  simp

lemma loadChaptersLoop_ok :
    ∀ (rem : List (Int × PyChapter)) (F : List (String × JValue))
      (acc : List (Int × PyChapter)),
    (∀ p ∈ rem, F.lookup (intToStr p.1) = some (dumpChapter p.2)) →
    (∀ p ∈ rem, acc.lookup p.1 = none) →
    (rem.map Prod.fst).Nodup →
    (∀ p ∈ rem, p.1 = p.2.num ∧ (p.2.lessons.map Prod.fst).Nodup ∧
      ∀ l ∈ p.2.lessons, l.1 = l.2.num) →
    loadChaptersLoop (.jobj F) acc (rem.map (fun p => JValue.jstr (intToStr p.1))) =
      .ok (acc ++ rem) := by
  intro rem
  induction rem with
  | nil => intro F acc _ _ _ _; simp [loadChaptersLoop]
  | cons q rest ih =>
    intro F acc h1 h2 hnd h4
    have hq1 := h1 q (List.mem_cons_self _ _)
    have hq2 := h2 q (List.mem_cons_self _ _)
    have hq4 := h4 q (List.mem_cons_self _ _)
    have hInt : pyIntJ (JValue.jstr (intToStr q.1)) = .ok q.1 := by
      simp [pyIntJ, pyStrToInt_intToStr]
    have hless : subscript (dumpChapter q.2) (.jstr "lessons") = .ok (dumpLessons q.2) := by
      simp [dumpChapter, subscript, List.lookup]
    have hname : subscript (dumpChapter q.2) (.jstr "name") = .ok q.2.name := by
      simp [dumpChapter, subscript, List.lookup]
    have hiter : pyIter (dumpLessons q.2) =
        .ok (q.2.lessons.map (fun p => JValue.jstr (intToStr p.1))) := by
      simp [dumpLessons, pyIter, List.map_map]
    have hloadless := dumpLessons_lookup q.2 hq4.2.1 hq4.2.2
    have hsub1 : subscript (JValue.jobj F) (JValue.jstr (intToStr q.1)) =
        .ok (dumpChapter q.2) := by
      simp [subscript, hq1]
    simp only [List.map_cons, loadChaptersLoop, hsub1, hInt, hless, hiter,
      hloadless, hname]
    rw [dictInsert_append _ _ _ hq2]
    have hnd2 := hnd
    simp only [List.map_cons, List.nodup_cons] at hnd2
    have hch : PyChapter.mk q.1 q.2.name q.2.lessons = q.2 := by
      rw [hq4.1]
    rw [hch]
    rw [ih F (acc ++ [q])
      (fun p hp => h1 p (List.mem_cons_of_mem _ hp))
      (fun p hp => by
        rw [lookup_append_none _ _ _ (h2 p (List.mem_cons_of_mem _ hp))]
        apply lookup_singleton_ne
        rw [beq_eq_false_iff_ne]
        intro he
        exact hnd2.1 (he ▸ List.mem_map_of_mem Prod.fst hp))
      hnd2.2 (fun p hp => h4 p (List.mem_cons_of_mem _ hp))]
    simp

lemma from_json_dump (pc : PyCourse) (h : WFPyCourse pc) :
    _from_json (dump pc) = .ok (some pc) := by
  obtain ⟨hnd, hwf⟩ := h
  have hkeys : pc.chapters.map (fun kv => (intToStr kv.2.num, dumpChapter kv.2)) =
      pc.chapters.map (fun kv => (intToStr kv.1, dumpChapter kv.2)) := by
    apply List.map_congr_left
    intro p hp
    rw [(hwf p hp).1]
  have hch : subscript (dump pc) (.jstr "chapters") =
      .ok (.jobj (pc.chapters.map (fun kv => (intToStr kv.1, dumpChapter kv.2)))) := by
    simp [dump, subscript, List.lookup, hkeys]
  have hiter : pyIter (.jobj (pc.chapters.map (fun kv => (intToStr kv.1, dumpChapter kv.2)))) =
      .ok (pc.chapters.map (fun p => JValue.jstr (intToStr p.1))) := by
    simp [pyIter, List.map_map]
  have hload := loadChaptersLoop_ok pc.chapters
    (pc.chapters.map (fun kv => (intToStr kv.1, dumpChapter kv.2))) []
    (fun p hp => lookup_map_intToStr (fun q => dumpChapter q.2) pc.chapters hnd p hp)
    (fun p _ => rfl) hnd hwf
  have hcid : subscript (dump pc) (.jstr "course_id") = .ok pc.course_id := by
    simp [dump, subscript, List.lookup]
  have htitle : subscript (dump pc) (.jstr "title") = .ok pc.title := by
    simp [dump, subscript, List.lookup]
  simp only [_from_json, fromJsonTry, hch, hiter, hload, List.nil_append, hcid, htitle]

lemma WFPy_of_WF (c : Course) (h : WFCourse c) : WFPyCourse c.toPy := by
  obtain ⟨hnd, hwf⟩ := h
  constructor
  · simpa [Course.toPy, List.map_map, Function.comp] using hnd
  · intro kv hkv
    simp only [Course.toPy, List.mem_map] at hkv
    obtain ⟨p, hp, rfl⟩ := hkv
    obtain ⟨h1, h2, h3⟩ := hwf p hp
    refine ⟨by simpa [Chapter.toPy] using h1, ?_, ?_⟩
    · simpa [Chapter.toPy, List.map_map, Function.comp] using h2
    · intro lkv hlkv
      simp only [Chapter.toPy, List.mem_map] at hlkv
      obtain ⟨q, hq, rfl⟩ := hlkv
      simpa [Lesson.toPy] using h3 q hq

/-- Claim C4: for every well-formed Course (integer course id, string title,
chapters keyed by chapter number with integer-keyed lessons),
deserializing the serialized cache form yields an equal Course:
`_from_json (dump course) = course`, the stringified numeric keys being
parsed back to the original integers. -/
theorem cache_roundtrip (c : Course) (h : WFCourse c) :
    _from_json (dump c.toPy) = .ok (some c.toPy) :=
  from_json_dump c.toPy (WFPy_of_WF c h)

/-- Witness for C4 at a concrete two-chapter course. -/
theorem cache_roundtrip_witness :
    WFCourse courseW4 ∧ _from_json (dump courseW4.toPy) = .ok (some courseW4.toPy) :=
  ⟨by constructor <;> decide, cache_roundtrip courseW4 (by constructor <;> decide)⟩

/-- Counterexample to C5 as stated: on a record with a missing top-level
`title` key, `_from_json` raises an uncaught `KeyError` instead of
returning the invalid result, because the final `Course(...)` call sits
outside the `try` block. -/
theorem from_json_missing_title_raises : _from_json recC5 = .error PyErr.keyError := by
  rfl

/-- Claim C5 (amended): every `KeyError`, `IndexError` or `TypeError`
raised while building the chapters structure (a missing `chapters`,
`lessons` or `name` key, a wrong type, a structural mismatch) is caught
and yields the invalid (`None`) result; in particular, a record whose
first chapter entry lacks a `lessons` key returns invalid and never
raises (provided its chapter key parses as an integer).  A missing
top-level `course_id` or `title` key, or a chapter or lesson key that
does not parse as an integer, raises instead. -/
theorem from_json_missing_lessons_invalid :
    (∀ (j : JValue) (e : PyErr), fromJsonTry j = .error e → isCaught e = true →
      _from_json j = .ok none) ∧
    (∀ (fields : List (String × JValue)) (k : String)
      (chFields rest : List (String × JValue)) (n : Int),
      fields.lookup "chapters" = some (.jobj ((k, .jobj chFields) :: rest)) →
      pyStrToInt k = some n →
      chFields.lookup "lessons" = none →
      _from_json (.jobj fields) = .ok none) := by
  constructor
  · intro j e he hc
    simp only [_from_json, he, hc, if_true]
  · intro fields k chFields rest n h1 h2 h3
    have hsub : subscript (.jobj fields) (.jstr "chapters") =
        .ok (.jobj ((k, .jobj chFields) :: rest)) := by
      simp [subscript, h1]
    have hsubk : subscript (JValue.jobj ((k, .jobj chFields) :: rest)) (.jstr k) =
        .ok (.jobj chFields) := by
      simp [subscript, List.lookup]
    have hInt : pyIntJ (.jstr k) = .ok n := by
      simp [pyIntJ, h2]
    have hless : subscript (JValue.jobj chFields) (.jstr "lessons") =
        .error PyErr.keyError := by
      simp [subscript, h3]
    simp only [_from_json, fromJsonTry, hsub, pyIter, List.map_cons, loadChaptersLoop,
      hsubk, hInt, hless, isCaught]
    simp

/-- Witness for C5 (amended) at a concrete record. -/
theorem from_json_missing_lessons_invalid_witness :
    _from_json (.jobj [("course_id", .jnum 5), ("title", .jstr "t"),
      ("chapters", .jobj [("1", .jobj [("name", .jstr "c")])])]) = .ok none :=
  from_json_missing_lessons_invalid.2
    [("course_id", .jnum 5), ("title", .jstr "t"),
      ("chapters", .jobj [("1", .jobj [("name", .jstr "c")])])]
    "1" [("name", .jstr "c")] [] 1 (by rfl) (by rfl) (by rfl)

/-- Claim C10: `get(courseId)` returns the cached record's stored
course id and title verbatim, without validating them against the
requested id: any record deserializing to a course is returned as is,
and the concrete cache record storing course id 999 requested as 100
yields a course whose id is 999, not 100. -/
theorem get_no_id_validation :
    (∀ (cid : Int) (j : JValue) (c : PyCourse) (scr : Int → PyCourse),
      _from_json j = .ok (some c) → get cid (some j) scr = .ok c) ∧
    (get 100 (some recC10) scrapeW = .ok ⟨.jnum 999, .jstr "t", []⟩ ∧
      JValue.jnum 999 ≠ JValue.jnum 100) := by
  constructor
  · intro cid j c scr h
    simp [get, h]
  · constructor
    · rfl
    · intro h
      cases h

/-- Witness for C10 at the concrete cache record. -/
theorem get_no_id_validation_witness :
    _from_json recC10 = .ok (some ⟨.jnum 999, .jstr "t", []⟩) ∧
    get 100 (some recC10) scrapeW = .ok ⟨.jnum 999, .jstr "t", []⟩ :=
  ⟨by rfl, get_no_id_validation.1 100 recC10 ⟨.jnum 999, .jstr "t", []⟩ scrapeW (by rfl)⟩

lemma applyActs_append (dirs : List Path) (a b : List Action) :
    applyActs dirs (a ++ b) = applyActs (applyActs dirs a) b :=
  List.foldl_append _ _ _ _

lemma processChapter_err (ctx : Ctx) (dirs : List Path) (n : Int) (name : String)
    (walkL : List (Path × List String)) :
    (processChapter ctx dirs n name walkL).2 = none ∨
    (processChapter ctx dirs n name walkL).2 = some (OrgErr.keyError n) := by
  unfold processChapter
  split
  · right; rfl
  · left
    dsimp only
    split
    · rfl
    · rfl

lemma processEntry_err (ctx : Ctx) (dirs : List Path) (e : Entry) :
    (processEntry ctx dirs e).2 = none ∨
    ∃ n, (processEntry ctx dirs e).2 = some (OrgErr.keyError n) := by
  unfold processEntry
  cases h : ctx.chapterPat e.name with
  | none => left; rfl
  | some n =>
    cases hk : e.kind with
    | plainFile => left; rfl
    | dir l =>
      rcases processChapter_err ctx dirs n e.name (entryWalk ctx e) with h2 | h2
      · left; exact h2
      · right; exact ⟨n, h2⟩
    | zipArchive l =>
      rcases processChapter_err ctx (applyActs dirs (extractActs ctx dirs e)) n e.name
        (entryWalk ctx e) with h2 | h2
      · left; simpa using h2
      · right; exact ⟨n, by simpa using h2⟩

lemma orgLoop_no_invalid (ctx : Ctx) : ∀ (entries : List Entry) (dirs : List Path)
    (p : Path), (orgLoop ctx dirs entries).2 ≠ some (OrgErr.invalidPath p) := by
  intro entries
  induction entries with
  | nil => intro dirs p h; simp [orgLoop] at h
  | cons e rest ih =>
    intro dirs p h
    rcases processEntry_err ctx dirs e with h2 | ⟨n, h2⟩
    · simp only [orgLoop, h2] at h
      exact ih (applyActs dirs (processEntry ctx dirs e).1) p h
    · simp only [orgLoop, h2] at h
      cases h

lemma orgLoop_append_ok (ctx : Ctx) : ∀ (xs : List Entry) (dirs : List Path)
    (actsP : List Action), orgLoop ctx dirs xs = (actsP, none) →
    ∀ (ys : List Entry), orgLoop ctx dirs (xs ++ ys) =
      (actsP ++ (orgLoop ctx (applyActs dirs actsP) ys).1,
       (orgLoop ctx (applyActs dirs actsP) ys).2) := by
  intro xs
  induction xs with
  | nil =>
    intro dirs actsP h ys
    simp only [orgLoop] at h
    have h1 : actsP = [] := by simpa using (congrArg Prod.fst h).symm
    subst h1
    simp [applyActs]
  | cons e rest ih =>
    intro dirs actsP h ys
    simp only [orgLoop] at h
    rcases hr : (processEntry ctx dirs e).2 with _ | er
    · rw [hr] at h
      rcases h2 : orgLoop ctx (applyActs dirs (processEntry ctx dirs e).1) rest with ⟨acts2, err2⟩
      rw [h2] at h
      have hacts : actsP = (processEntry ctx dirs e).1 ++ acts2 := by
        have h3 := congrArg Prod.fst h
        simpa using h3.symm
      have herr : err2 = none := by
        have h3 := congrArg Prod.snd h
        simpa using h3
      subst herr
      subst hacts
      show orgLoop ctx dirs (e :: (rest ++ ys)) = _
      simp only [orgLoop, hr]
      rw [ih (applyActs dirs (processEntry ctx dirs e).1) acts2 h2 ys]
      rw [List.append_assoc, applyActs_append]
    · rw [hr] at h
      have := congrArg Prod.snd h
      simp at this

lemma organise_good (course : Course) (src dst : Path) (cp : String → Option Int)
    (lp : String → Option (Int × String)) (entries : List Entry)
    (adst pdst : Option Path) (pfx : Option String) (ign : List String)
    (dirs0 : List Path) (adstv pdstv : Path)
    (h1 : src ∈ dirs0) (h2 : dst ∈ dirs0)
    (h3 : resolveDst dirs0 dst adst = .ok adstv)
    (h4 : resolveDst dirs0 dst pdst = .ok pdstv) :
    organise course src dst cp lp entries adst pdst pfx ign dirs0 =
      (match (orgLoop (mkCtx course src dst adstv pdstv cp lp pfx ign) dirs0 entries).2 with
       | some er =>
         ((orgLoop (mkCtx course src dst adstv pdstv cp lp pfx ign) dirs0 entries).1,
          some er)
       | none =>
         if tempPath (mkCtx course src dst adstv pdstv cp lp pfx ign) ∈
             applyActs dirs0
               (orgLoop (mkCtx course src dst adstv pdstv cp lp pfx ign) dirs0 entries).1
         then ((orgLoop (mkCtx course src dst adstv pdstv cp lp pfx ign) dirs0 entries).1 ++
             [Action.rmtree (tempPath (mkCtx course src dst adstv pdstv cp lp pfx ign))],
           none)
         else ((orgLoop (mkCtx course src dst adstv pdstv cp lp pfx ign) dirs0 entries).1,
           none)) := by
  simp [organise, h1, h2, h3, h4]

lemma organise_good_err (course : Course) (src dst : Path) (cp : String → Option Int)
    (lp : String → Option (Int × String)) (entries : List Entry)
    (adst pdst : Option Path) (pfx : Option String) (ign : List String)
    (dirs0 : List Path) (adstv pdstv : Path)
    (h1 : src ∈ dirs0) (h2 : dst ∈ dirs0)
    (h3 : resolveDst dirs0 dst adst = .ok adstv)
    (h4 : resolveDst dirs0 dst pdst = .ok pdstv) :
    (organise course src dst cp lp entries adst pdst pfx ign dirs0).2 =
      (orgLoop (mkCtx course src dst adstv pdstv cp lp pfx ign) dirs0 entries).2 := by
  rw [organise_good course src dst cp lp entries adst pdst pfx ign dirs0 adstv pdstv
    h1 h2 h3 h4]
  rcases h : (orgLoop (mkCtx course src dst adstv pdstv cp lp pfx ign) dirs0 entries).2
    with _ | er
  · dsimp only
    split
    · rfl
    · rfl
  · rfl

/-- Claim C8: `organise` raises `InvalidPathError` (the `OSError` of the
precondition checks) if and only if `src`, `dst`, or a supplied
(non-`None`) `avi_dst` or `pdf_dst` directory does not exist, and when it
is raised no action has been performed: no file moved, no directory
created, no source entry renamed. -/
theorem organise_invalid_path_iff (course : Course) (src dst : Path)
    (cp : String → Option Int) (lp : String → Option (Int × String))
    (entries : List Entry) (adst pdst : Option Path) (pfx : Option String)
    (ign : List String) (dirs0 : List Path) :
    ((∃ p, (organise course src dst cp lp entries adst pdst pfx ign dirs0).2 =
        some (OrgErr.invalidPath p)) ↔
      (src ∉ dirs0 ∨ dst ∉ dirs0 ∨ (∃ p, adst = some p ∧ p ∉ dirs0) ∨
        (∃ p, pdst = some p ∧ p ∉ dirs0))) ∧
    (∀ p, (organise course src dst cp lp entries adst pdst pfx ign dirs0).2 =
        some (OrgErr.invalidPath p) →
      (organise course src dst cp lp entries adst pdst pfx ign dirs0).1 = []) := by
  by_cases h1 : src ∈ dirs0
  case neg =>
    have he : organise course src dst cp lp entries adst pdst pfx ign dirs0 =
        ([], some (.invalidPath src)) := by
      simp [organise, h1]
    rw [he]
    exact ⟨⟨fun _ => Or.inl h1, fun _ => ⟨src, rfl⟩⟩, fun p _ => rfl⟩
  by_cases h2 : dst ∈ dirs0
  case neg =>
    have he : organise course src dst cp lp entries adst pdst pfx ign dirs0 =
        ([], some (.invalidPath dst)) := by
      simp [organise, h1, h2]
    rw [he]
    exact ⟨⟨fun _ => Or.inr (Or.inl h2), fun _ => ⟨dst, rfl⟩⟩, fun p _ => rfl⟩
  have hgood : ∀ (adstv pdstv : Path), resolveDst dirs0 dst adst = .ok adstv →
      resolveDst dirs0 dst pdst = .ok pdstv →
      (¬ (∃ p, adst = some p ∧ p ∉ dirs0)) → (¬ (∃ p, pdst = some p ∧ p ∉ dirs0)) →
      ((∃ p, (organise course src dst cp lp entries adst pdst pfx ign dirs0).2 =
          some (OrgErr.invalidPath p)) ↔
        (src ∉ dirs0 ∨ dst ∉ dirs0 ∨ (∃ p, adst = some p ∧ p ∉ dirs0) ∨
          (∃ p, pdst = some p ∧ p ∉ dirs0))) ∧
      (∀ p, (organise course src dst cp lp entries adst pdst pfx ign dirs0).2 =
          some (OrgErr.invalidPath p) →
        (organise course src dst cp lp entries adst pdst pfx ign dirs0).1 = []) := by
    intro adstv pdstv h3 h4 hna hnp
    have herr : ∀ q, (organise course src dst cp lp entries adst pdst pfx ign
        dirs0).2 ≠ some (OrgErr.invalidPath q) := by
      intro q hq
      rw [organise_good_err course src dst cp lp entries adst pdst pfx ign dirs0
        adstv pdstv h1 h2 h3 h4] at hq
      exact orgLoop_no_invalid _ entries dirs0 q hq
    constructor
    · constructor
      · rintro ⟨p, hp⟩
        exact absurd hp (herr p)
      · intro hcond
        rcases hcond with h | h | h | h
        · exact absurd h1 h
        · exact absurd h2 h
        · exact absurd h hna
        · exact absurd h hnp
    · intro p hp
      exact absurd hp (herr p)
  cases adst with
  | none =>
    cases pdst with
    | none =>
      exact hgood dst dst rfl rfl (by rintro ⟨p, hp, -⟩; cases hp)
        (by rintro ⟨p, hp, -⟩; cases hp)
    | some pp =>
      by_cases h4 : pp ∈ dirs0
      · exact hgood dst pp rfl (by simp [resolveDst, h4])
          (by rintro ⟨p, hp, -⟩; cases hp)
          (by rintro ⟨p, hp, hnp⟩; rw [Option.some.injEq] at hp; exact hnp (hp ▸ h4))
      · have he : organise course src dst cp lp entries none (some pp) pfx ign dirs0 =
            ([], some (.invalidPath pp)) := by
          simp [organise, h1, h2, resolveDst, h4]
        rw [he]
        exact ⟨⟨fun _ => Or.inr (Or.inr (Or.inr ⟨pp, rfl, h4⟩)),
          fun _ => ⟨pp, rfl⟩⟩, fun p _ => rfl⟩
  | some pa =>
    by_cases h3 : pa ∈ dirs0
    · cases pdst with
      | none =>
        exact hgood pa dst (by simp [resolveDst, h3]) rfl
          (by rintro ⟨p, hp, hnp⟩; rw [Option.some.injEq] at hp; exact hnp (hp ▸ h3))
          (by rintro ⟨p, hp, -⟩; cases hp)
      | some pp =>
        by_cases h4 : pp ∈ dirs0
        · exact hgood pa pp (by simp [resolveDst, h3]) (by simp [resolveDst, h4])
            (by rintro ⟨p, hp, hnp⟩; rw [Option.some.injEq] at hp; exact hnp (hp ▸ h3))
            (by rintro ⟨p, hp, hnp⟩; rw [Option.some.injEq] at hp; exact hnp (hp ▸ h4))
        · have he : organise course src dst cp lp entries (some pa) (some pp) pfx
              ign dirs0 = ([], some (.invalidPath pp)) := by
            simp [organise, h1, h2, resolveDst, h3, h4]
          rw [he]
          exact ⟨⟨fun _ => Or.inr (Or.inr (Or.inr ⟨pp, rfl, h4⟩)),
            fun _ => ⟨pp, rfl⟩⟩, fun p _ => rfl⟩
    · have he : organise course src dst cp lp entries (some pa) pdst pfx ign dirs0 =
          ([], some (.invalidPath pa)) := by
        simp [organise, h1, h2, resolveDst, h3]
      rw [he]
      exact ⟨⟨fun _ => Or.inr (Or.inr (Or.inl ⟨pa, rfl, h3⟩)),
        fun _ => ⟨pa, rfl⟩⟩, fun p _ => rfl⟩

/-- Witness for C8 at a concrete call with a missing source directory. -/
theorem organise_invalid_path_witness :
    ∃ p, (organise ⟨100, "T", []⟩ ["s"] ["d"] (fun _ => none) (fun _ => none) []
      none none none ["html"] []).2 = some (OrgErr.invalidPath p) :=
  (organise_invalid_path_iff ⟨100, "T", []⟩ ["s"] ["d"] (fun _ => none)
    (fun _ => none) [] none none none ["html"] []).1.mpr (Or.inl (by simp))

lemma processEntry_keyError (ctx : Ctx) (dirs : List Path) (e : Entry) (n : Int)
    (h6 : ctx.chapterPat e.name = some n)
    (h7 : entryListing e.kind ≠ none)
    (h8 : ctx.course.chapters.lookup n = none) :
    (processEntry ctx dirs e).2 = some (OrgErr.keyError n) := by
  unfold processEntry
  rw [h6]
  cases hk : e.kind with
  | plainFile => exact absurd (by rw [entryListing]) (hk ▸ h7)
  | dir l =>
    simp only [processChapter, h8]
  | zipArchive l =>
    simp only [processChapter, h8]

lemma orgLoop_keyError (ctx : Ctx) (dirs : List Path) (e : Entry) (n : Int)
    (rest : List Entry)
    (h : (processEntry ctx dirs e).2 = some (OrgErr.keyError n)) :
    orgLoop ctx dirs (e :: rest) =
      ((processEntry ctx dirs e).1, some (OrgErr.keyError n)) := by
  simp only [orgLoop, h]

/-- Claim C9 (amended): if a top-level entry of `src` that is a directory
or a zip archive matches the chapter pattern but its captured chapter
number is not a key of the course's chapters mapping, `organise` raises
an uncaught `KeyError` at the first such entry, aborting the entire run:
the result does not depend on the entries after it, so they are not
processed.  (A matching plain non-archive file is skipped before the
lookup and raises nothing.) -/
theorem organise_missing_chapter_aborts (course : Course) (src dst : Path)
    (cp : String → Option Int) (lp : String → Option (Int × String))
    (pre post : List Entry) (e : Entry) (adst pdst : Option Path)
    (pfx : Option String) (ign : List String) (dirs0 : List Path)
    (adstv pdstv : Path) (n : Int) (actsP : List Action)
    (h1 : src ∈ dirs0) (h2 : dst ∈ dirs0)
    (h3 : resolveDst dirs0 dst adst = .ok adstv)
    (h4 : resolveDst dirs0 dst pdst = .ok pdstv)
    (h5 : orgLoop (mkCtx course src dst adstv pdstv cp lp pfx ign) dirs0 pre =
      (actsP, none))
    (h6 : cp e.name = some n)
    (h7 : entryListing e.kind ≠ none)
    (h8 : course.chapters.lookup n = none) :
    (organise course src dst cp lp (pre ++ e :: post) adst pdst pfx ign dirs0).2 =
      some (OrgErr.keyError n) ∧
    organise course src dst cp lp (pre ++ e :: post) adst pdst pfx ign dirs0 =
      organise course src dst cp lp (pre ++ [e]) adst pdst pfx ign dirs0 := by
  set ctx := mkCtx course src dst adstv pdstv cp lp pfx ign with hctx
  have hpe : (processEntry ctx (applyActs dirs0 actsP) e).2 =
      some (OrgErr.keyError n) :=
    processEntry_keyError ctx (applyActs dirs0 actsP) e n h6 h7 h8
  have hloop : ∀ (post' : List Entry), orgLoop ctx dirs0 (pre ++ e :: post') =
      (actsP ++ (processEntry ctx (applyActs dirs0 actsP) e).1,
       some (OrgErr.keyError n)) := by
    intro post'
    rw [orgLoop_append_ok ctx pre dirs0 actsP h5 (e :: post')]
    rw [orgLoop_keyError ctx (applyActs dirs0 actsP) e n post' hpe]
  have horg : ∀ (post' : List Entry),
      organise course src dst cp lp (pre ++ e :: post') adst pdst pfx ign dirs0 =
      (actsP ++ (processEntry ctx (applyActs dirs0 actsP) e).1,
       some (OrgErr.keyError n)) := by
    intro post'
    rw [organise_good course src dst cp lp (pre ++ e :: post') adst pdst pfx ign
      dirs0 adstv pdstv h1 h2 h3 h4]
    rw [← hctx, hloop post']
  constructor
  · rw [horg post]
  · rw [horg post, horg []]

lemma extractActs_kinds (ctx : Ctx) (dirs : List Path) (e : Entry) :
    ∀ a ∈ extractActs ctx dirs e, a.isMove = false ∧ a.isRen = false := by
  intro a ha
  unfold extractActs at ha
  rcases List.mem_append.mp ha with h | h
  · split at h
    · simp at h
    · rw [List.mem_singleton] at h
      subst h
      exact ⟨rfl, rfl⟩
  · rw [List.mem_singleton] at h
    subst h
    exact ⟨rfl, rfl⟩

lemma movePhase_kinds : ∀ (files : List OFile) (dirs : List Path) (a : Action),
    a ∈ movePhase dirs files → a.isRen = false := by
  intro files
  induction files with
  | nil => intro dirs a ha; simp [movePhase] at ha
  | cons f rest ih =>
    intro dirs a ha
    unfold movePhase at ha
    dsimp only at ha
    split at ha
    · rcases List.mem_cons.mp ha with rfl | h
      · rfl
      · exact ih _ _ h
    · rcases List.mem_cons.mp ha with rfl | h
      · rfl
      · rcases List.mem_cons.mp h with rfl | h2
        · rfl
        · exact ih _ _ h2

lemma movePhase_mem : ∀ (files : List OFile) (dirs : List Path) (f : OFile),
    f ∈ files → Action.move f.file_path f.new_file_path ∈ movePhase dirs files := by
  intro files
  induction files with
  | nil => intro dirs f hf; simp at hf
  | cons g rest ih =>
    intro dirs f hf
    unfold movePhase
    dsimp only
    rcases List.mem_cons.mp hf with rfl | h
    · split
      · exact List.mem_cons_self _ _
      · exact List.mem_cons_of_mem _ (List.mem_cons_self _ _)
    · split
      · exact List.mem_cons_of_mem _ (ih _ _ h)
      · exact List.mem_cons_of_mem _ (List.mem_cons_of_mem _ (ih _ _ h))

lemma movesOk_append : ∀ (a : List Action) (dirs : List Path) (b : List Action),
    movesOk dirs (a ++ b) = (movesOk dirs a && movesOk (applyActs dirs a) b) := by
  intro a
  induction a with
  | nil => intro dirs b; simp [movesOk, applyActs]
  | cons x xs ih =>
    intro dirs b
    simp only [List.cons_append, movesOk, List.append_eq]
    rw [ih, Bool.and_assoc]
    rfl

lemma self_mem_pathPrefixes (p : Path) : p ∈ pathPrefixes p := by
  unfold pathPrefixes
  refine List.mem_map.mpr ⟨p.length, ?_, List.take_length p⟩
  simp [List.mem_range]

lemma movesOk_movePhase : ∀ (files : List OFile) (dirs : List Path),
    movesOk dirs (movePhase dirs files) = true := by
  intro files
  induction files with
  | nil => intro dirs; rfl
  | cons f rest ih =>
    intro dirs
    unfold movePhase
    dsimp only
    split
    · rename_i h
      simp only [movesOk, dirsStep]
      rw [ih]
      simp [h]
    · rename_i h
      simp only [movesOk, dirsStep]
      rw [ih]
      simp [self_mem_pathPrefixes]

lemma movesOk_no_moves : ∀ (acts : List Action) (dirs : List Path),
    (∀ a ∈ acts, a.isMove = false) → movesOk dirs acts = true := by
  intro acts
  induction acts with
  | nil => intro dirs _; rfl
  | cons a rest ih =>
    intro dirs h
    have ha := h a (List.mem_cons_self _ _)
    cases a
    case move s d => simp [Action.isMove] at ha
    all_goals
      simp only [movesOk, Bool.true_and]
      exact ih _ (fun x hx => h x (List.mem_cons_of_mem _ hx))

/-- Claim C2: for every chapter entry, if the set of lesson numbers in
the course model's chapter differs from the set of lesson numbers
captured from collected files with extension avi, the chapter is skipped
entirely: the entry's processing performs no move and no rename, raises
nothing, and the listing loop continues with the remaining entries. -/
theorem organise_skips_mismatched_chapter (ctx : Ctx) (dirs : List Path)
    (e : Entry) (rest : List Entry) (n : Int) (chapter : Chapter)
    (h1 : ctx.chapterPat e.name = some n)
    (h2 : entryListing e.kind ≠ none)
    (h3 : ctx.course.chapters.lookup n = some chapter)
    (h4 : sameSet (chapter.lessons.map Prod.fst)
      (aviNums (collectFiles ctx chapter n (entryWalk ctx e))) = false) :
    (processEntry ctx dirs e).2 = none ∧
    (∀ a ∈ (processEntry ctx dirs e).1, a.isMove = false ∧ a.isRen = false) ∧
    orgLoop ctx dirs (e :: rest) =
      ((processEntry ctx dirs e).1 ++
        (orgLoop ctx (applyActs dirs (processEntry ctx dirs e).1) rest).1,
       (orgLoop ctx (applyActs dirs (processEntry ctx dirs e).1) rest).2) := by
  have hch : ∀ d, processChapter ctx d n e.name (entryWalk ctx e) = ([], none) := by
    intro d
    simp only [processChapter, h3]
    rw [if_neg (by simp [h4])]
  cases hk : e.kind with
  | plainFile => exact absurd (by rw [entryListing]) (hk ▸ h2)
  | dir l =>
    have hpe : processEntry ctx dirs e = ([], none) := by
      simp only [processEntry, h1, hk]
      exact hch dirs
    refine ⟨by rw [hpe], by rw [hpe]; intro a ha; simp at ha, ?_⟩
    simp only [orgLoop, hpe]
  | zipArchive l =>
    have hpe : processEntry ctx dirs e = (extractActs ctx dirs e, none) := by
      simp only [processEntry, h1, hk]
      rw [hch]
      simp
    refine ⟨by rw [hpe], ?_, ?_⟩
    · rw [hpe]
      exact extractActs_kinds ctx dirs e
    · simp only [orgLoop, hpe]

/-- Claim C3: for every chapter entry whose collected avi lesson numbers
exactly equal the model chapter's lesson numbers, every collected file is
moved to its computed destination, each move finding its destination
directory already present or created by a preceding `makedirs`; the
source entry is not renamed when no completed prefix is configured, and
is renamed by prepending the prefix when one is. -/
theorem organise_moves_complete_chapter (ctx : Ctx) (dirs : List Path)
    (e : Entry) (n : Int) (chapter : Chapter)
    (h1 : ctx.chapterPat e.name = some n)
    (h2 : entryListing e.kind ≠ none)
    (h3 : ctx.course.chapters.lookup n = some chapter)
    (h4 : sameSet (chapter.lessons.map Prod.fst)
      (aviNums (collectFiles ctx chapter n (entryWalk ctx e))) = true) :
    (processEntry ctx dirs e).2 = none ∧
    (∀ f ∈ collectFiles ctx chapter n (entryWalk ctx e),
      Action.move f.file_path f.new_file_path ∈ (processEntry ctx dirs e).1) ∧
    movesOk dirs (processEntry ctx dirs e).1 = true ∧
    (ctx.completedPfx = none → ∀ a ∈ (processEntry ctx dirs e).1, a.isRen = false) ∧
    (∀ pfx, ctx.completedPfx = some pfx →
      Action.rename (ctx.src ++ [e.name]) (ctx.src ++ [pfx ++ e.name]) ∈
        (processEntry ctx dirs e).1) := by
  have hch : ∀ d, processChapter ctx d n e.name (entryWalk ctx e) =
      (movePhase d (collectFiles ctx chapter n (entryWalk ctx e)) ++
        (match ctx.completedPfx with
         | none => []
         | some pfx => [Action.rename (ctx.src ++ [e.name])
             (ctx.src ++ [pfx ++ e.name])]), none) := by
    intro d
    simp only [processChapter, h3]
    rw [if_pos (by simp [h4])]
  have hrn_kinds : ∀ a ∈ (match ctx.completedPfx with
      | none => ([] : List Action)
      | some pfx => [Action.rename (ctx.src ++ [e.name])
          (ctx.src ++ [pfx ++ e.name])]), a.isMove = false := by
    intro a ha
    cases hpf : ctx.completedPfx with
    | none => rw [hpf] at ha; simp at ha
    | some pfx =>
      rw [hpf] at ha
      rw [List.mem_singleton] at ha
      subst ha
      rfl
  cases hk : e.kind with
  | plainFile => exact absurd (by rw [entryListing]) (hk ▸ h2)
  | dir l =>
    have hpe : processEntry ctx dirs e =
        (movePhase dirs (collectFiles ctx chapter n (entryWalk ctx e)) ++
          (match ctx.completedPfx with
           | none => []
           | some pfx => [Action.rename (ctx.src ++ [e.name])
               (ctx.src ++ [pfx ++ e.name])]), none) := by
      simp only [processEntry, h1, hk]
      exact hch dirs
    rw [hpe]
    refine ⟨rfl, ?_, ?_, ?_, ?_⟩
    · intro f hf
      exact List.mem_append_left _ (movePhase_mem _ dirs f hf)
    · rw [movesOk_append]
      rw [movesOk_movePhase]
      rw [movesOk_no_moves _ _ hrn_kinds]
      rfl
    · intro hpf a ha
      rw [hpf] at ha
      simp only [List.append_nil] at ha
      exact movePhase_kinds _ _ _ ha
    · intro pfx hpf
      rw [hpf]
      exact List.mem_append_right _ (List.mem_singleton.mpr rfl)
  | zipArchive l =>
    have hpe : processEntry ctx dirs e =
        (extractActs ctx dirs e ++
          (movePhase (applyActs dirs (extractActs ctx dirs e))
            (collectFiles ctx chapter n (entryWalk ctx e)) ++
          (match ctx.completedPfx with
           | none => []
           | some pfx => [Action.rename (ctx.src ++ [e.name])
               (ctx.src ++ [pfx ++ e.name])])), none) := by
      simp only [processEntry, h1, hk]
      rw [hch]
    rw [hpe]
    refine ⟨rfl, ?_, ?_, ?_, ?_⟩
    · intro f hf
      exact List.mem_append_right _ (List.mem_append_left _
        (movePhase_mem _ _ f hf))
    · rw [movesOk_append]
      rw [movesOk_no_moves _ _ (fun a ha => (extractActs_kinds ctx dirs e a ha).1)]
      rw [movesOk_append]
      rw [movesOk_movePhase]
      rw [movesOk_no_moves _ _ hrn_kinds]
      rfl
    · intro hpf a ha
      rw [hpf] at ha
      simp only [List.append_nil] at ha
      rcases List.mem_append.mp ha with h | h
      · exact (extractActs_kinds ctx dirs e a h).2
      · exact movePhase_kinds _ _ _ h
    · intro pfx hpf
      rw [hpf]
      exact List.mem_append_right _ (List.mem_append_right _
        (List.mem_singleton.mpr rfl))

/-- Claim C1 (code bug): evaluation at the failing input.  The chapter
directory holds `1. a.avi` (lesson 1, present in the model) and
`2. b.pdf` (lesson 2, absent).  The missing-lesson condition fires on the
pdf, yet the `break` only leaves the inner file loop: the completeness
check still passes on the avi set `{1}`, so the previously collected
file IS moved — contradicting the claim (and the code's own log message
"This chapter will be skipped"). -/
theorem organise_break_still_moves :
    lessPat1 "2. b.pdf" = some (2, "b") ∧
    chapW1.lessons.lookup 2 = none ∧
    organise courseW1 ["src"] ["dst"] chapPat1 lessPat1
      [⟨"Chapter 1", .dir [([], ["1. a.avi", "2. b.pdf"])]⟩] none none none
      ["html"] [["src"], ["dst"]] =
      ([Action.makedirs ["dst", "T", "01 - C"],
        Action.move ["src", "Chapter 1", "1. a.avi"]
          ["dst", "T", "01 - C", "s100ch01l01 - A.avi"]], none) :=
  ⟨rfl, rfl, rfl⟩

/-- Counterexample to C9 as stated: a top-level entry that is a plain
non-archive file matching the chapter pattern with a captured chapter
number absent from the model is skipped by the `is_zipfile`/`isfile`
discrimination before the chapters lookup, so `organise` completes
without raising any `KeyError`. -/
theorem organise_plainfile_no_keyerror :
    chapPat5 "Chapter 5" = some 5 ∧
    courseW1.chapters.lookup 5 = none ∧
    organise courseW1 ["src"] ["dst"] chapPat5 lessPat1
      [⟨"Chapter 5", .plainFile⟩] none none none ["html"] [["src"], ["dst"]] =
      ([], none) :=
  ⟨rfl, rfl, rfl⟩

/-- Witness for C9 (amended) at a concrete directory entry. -/
theorem organise_missing_chapter_witness :
    (organise courseW1 ["src"] ["dst"] chapPat5 lessPat1
      [⟨"Chapter 5", .dir [([], ["x.avi"])]⟩, ⟨"zzz", .plainFile⟩]
      none none none ["html"] [["src"], ["dst"]]).2 = some (OrgErr.keyError 5) ∧
    organise courseW1 ["src"] ["dst"] chapPat5 lessPat1
      [⟨"Chapter 5", .dir [([], ["x.avi"])]⟩, ⟨"zzz", .plainFile⟩]
      none none none ["html"] [["src"], ["dst"]] =
    organise courseW1 ["src"] ["dst"] chapPat5 lessPat1
      [⟨"Chapter 5", .dir [([], ["x.avi"])]⟩]
      none none none ["html"] [["src"], ["dst"]] :=
  organise_missing_chapter_aborts courseW1 ["src"] ["dst"] chapPat5 lessPat1
    [] [⟨"zzz", .plainFile⟩] ⟨"Chapter 5", .dir [([], ["x.avi"])]⟩ none none none
    ["html"] [["src"], ["dst"]] ["dst"] ["dst"] 5 []
    (by decide) (by decide) rfl rfl rfl rfl (by decide) rfl

/-- Witness for C2: a chapter with model lessons `{1, 2}` whose only avi
file maps to lesson 1 is skipped. -/
theorem organise_skips_witness :
    (processEntry ctxW2 [["src"], ["dst"]] eW2).2 = none ∧
    orgLoop ctxW2 [["src"], ["dst"]] (eW2 :: []) =
      ((processEntry ctxW2 [["src"], ["dst"]] eW2).1 ++
        (orgLoop ctxW2 (applyActs [["src"], ["dst"]]
          (processEntry ctxW2 [["src"], ["dst"]] eW2).1) []).1,
       (orgLoop ctxW2 (applyActs [["src"], ["dst"]]
          (processEntry ctxW2 [["src"], ["dst"]] eW2).1) []).2) :=
  ⟨(organise_skips_mismatched_chapter ctxW2 [["src"], ["dst"]] eW2 [] 1 chapW2
      rfl (by decide) rfl (by rfl)).1,
   (organise_skips_mismatched_chapter ctxW2 [["src"], ["dst"]] eW2 [] 1 chapW2
      rfl (by decide) rfl (by rfl)).2.2⟩

/-- Witness for C3: a complete chapter is moved and its source entry
renamed with the configured prefix. -/
theorem organise_moves_witness :
    (processEntry ctxW3 [["src"], ["dst"]] eW3).2 = none ∧
    Action.move fW3.file_path fW3.new_file_path ∈
      (processEntry ctxW3 [["src"], ["dst"]] eW3).1 ∧
    movesOk [["src"], ["dst"]] (processEntry ctxW3 [["src"], ["dst"]] eW3).1 = true ∧
    Action.rename (ctxW3.src ++ [eW3.name]) (ctxW3.src ++ ["DONE " ++ eW3.name]) ∈
      (processEntry ctxW3 [["src"], ["dst"]] eW3).1 :=
  ⟨(organise_moves_complete_chapter ctxW3 [["src"], ["dst"]] eW3 1 chapW1
      rfl (by decide) rfl (by rfl)).1,
   (organise_moves_complete_chapter ctxW3 [["src"], ["dst"]] eW3 1 chapW1
      rfl (by decide) rfl (by rfl)).2.1 fW3 (by decide),
   (organise_moves_complete_chapter ctxW3 [["src"], ["dst"]] eW3 1 chapW1
      rfl (by decide) rfl (by rfl)).2.2.1,
   (organise_moves_complete_chapter ctxW3 [["src"], ["dst"]] eW3 1 chapW1
      rfl (by decide) rfl (by rfl)).2.2.2.2 "DONE " rfl⟩

/-- Claim C6 (amended): the name transformation is a pure total function
(it is a Lean function, deterministic by construction), and for every raw
name whose slash-replaced form contains no overlapping separator
occurrences (no infix `" - - "`), the replaced name part of the output
contains no occurrence of the forbidden separator `" - "`; the only
remaining occurrence is the intentional numbering-prefix separator. -/
theorem transform_name_no_overlap_sep (name : String)
    (h : containsPat badL (pyReplace name "/" " & ").toList = false) :
    containsPat sepL (cleanName name).toList = false := by
  have he : (cleanName name).toList =
      replaceFuel sepL repL (pyReplace name "/" " & ").toList.length
        (pyReplace name "/" " & ").toList := rfl
  rw [he]
  exact replace_no_sep _ _ le_rfl h

/-- Witness for C6 (amended) at the raw name `"a - b"`. -/
theorem transform_name_no_overlap_sep_witness :
    containsPat badL (pyReplace "a - b" "/" " & ").toList = false ∧
    containsPat sepL (cleanName "a - b").toList = false :=
  ⟨by decide, transform_name_no_overlap_sep "a - b" (by decide)⟩

/-- Counterexample to C6 as stated: replacement scans left to right over
non-overlapping occurrences, so the raw name `"a - - b"` (two overlapping
separators) cleans to `"a; - b"`, which still contains the separator, and
the transformed output `"05 - a; - b"` contains it beyond the numbering
prefix. -/
theorem transform_name_sep_survives :
    cleanName "a - - b" = "a; - b" ∧
    containsPat sepL ("a; - b").toList = true ∧
    transform_name 5 "a - - b" none none = "05 - a; - b" :=
  ⟨rfl, rfl, rfl⟩

/-- Claim C7: the transformation produces `"%02d - %s"` chapter-level
names and `"s%03dch%02dl%02d - %s"` lesson-level names; concretely
`transform(5, "Intro")` is `"05 - Intro"` and `transform(3, "Setup",
courseId=160, chapterNum=1)` is `"s160ch01l03 - Setup"`. -/
theorem transform_name_formats :
    transform_name 5 "Intro" none none = "05 - Intro" ∧
    transform_name 3 "Setup" (some 160) (some 1) = "s160ch01l03 - Setup" :=
  ⟨rfl, rfl⟩

end LIF


